import Mathlib

/-!
Shallow embedding of the core of the Difficulty_Map repository
(difficulty_map/source: dijkstra.py, roads.py, cutting_points.py, graph.py,
buffer.py, classes.py, pipeline.py) and proofs about the claims of its
specification.

Conventions of the embedding:
* Raster values, coordinates and distances are rationals; the Python value
  float("inf") is the top element of `WithTop ℚ`.
* The shapely / rasterio geometry layer is an external collaborator of the
  core (spec section 2); it enters the embedding as explicit function
  parameters (projection of a point onto a trail, length of a built segment,
  raster samples along a built segment, point to point distance).
  Concrete instantiations used in witnesses and counterexamples are chosen so
  that every evaluated geometric quantity is an exact rational.
* Python dictionaries are insertion ordered association lists; Python lists
  are Lean lists; the mutable CuttingPoint records are a function from node
  index to a record of the five mutable cost fields.
-/

namespace DifficultyMap

/-- Extended rationals modelling Python floats together with float("inf"). -/
abbrev QI := WithTop ℚ

/-- Mutable cost fields of a CuttingPoint (classes.py, CuttingPoint).
The constructor of classes.py sets every field to float("inf"). -/
structure CPState where
  bestDiff : QI
  totalDist : QI
  totalElevGain : QI
  totalDescent : QI
  distOnRoads : QI
deriving DecidableEq

/-- Field values given by CuttingPoint.__init__ in classes.py: every cost
field starts at float("inf"). -/
def cpInit : CPState := ⟨⊤, ⊤, ⊤, ⊤, ⊤⟩

instance : Inhabited CPState := ⟨cpInit⟩

/-- One output record of compute_difficulty_between_points (dijkstra.py).
The geometry of the record is the built segment, determined by the trail id
and the two interpolation distances gStart and gEnd. -/
structure SegRec where
  gStart : ℚ
  gEnd : ℚ
  segDiff : ℚ
  totalDiff : QI
  positSeg : ℚ
  distRoad : QI
  trailId : Nat
  startCP : Nat
  endCP : Nat
  segLength : ℚ
  elevGain : ℚ
  totalElevGain : QI
  descent : ℚ
  totalDescent : QI
  totalDist : QI
deriving DecidableEq

/-- Geometry and raster access layer (external collaborator, spec section 2):
projection of a cutting point onto a trail, length of the segment built
between two distances along a trail, and the raster values sampled at the
n points of that segment (before the nodata filter). -/
structure GeoEnv where
  projCP : Nat → Nat → ℚ
  segLen : Nat → ℚ → ℚ → ℚ
  rawSamples : Nat → ℚ → ℚ → List ℚ
  nodata : ℚ

/-- Embedding of sample_valid_raster_values (dijkstra.py): the sampled values
with every value equal to the nodata sentinel discarded. -/
def validSamples (env : GeoEnv) (t : Nat) (a b : ℚ) : List ℚ :=
  (env.rawSamples t a b).filter (fun v => v ≠ env.nodata)

/-- Loop body of the while loop building contiguous 50 unit steps, with an
explicit fuel argument bounding the number of iterations. -/
def buildStepsAux : Nat → ℚ → ℚ → List (ℚ × ℚ)
  | 0, _, _ => []
  | Nat.succ fuel, cur, maxd =>
    if cur < maxd then
      (cur, min (cur + 50) maxd) :: buildStepsAux fuel (min (cur + 50) maxd) maxd
    else []

/-- Fuel sufficient for the while loop: one iteration per started 50 unit
step plus one. -/
def stepsFuel (mind maxd : ℚ) : Nat := (⌈(maxd - mind) / 50⌉).toNat + 1

/-- Embedding of the segment building while loop of
compute_difficulty_between_points (dijkstra.py): the list of
(start_dist, end_dist) pairs of the contiguous segments. -/
def buildSteps (mind maxd : ℚ) : List (ℚ × ℚ) :=
  buildStepsAux (stepsFuel mind maxd) mind maxd

/-- Pairwise elevation deltas of the loop in
compute_difficulty_between_points: first component accumulates the positive
deltas, second component the nonpositive ones. -/
def gainDescentAux : ℚ → List ℚ → ℚ × ℚ
  | _, [] => (0, 0)
  | prev, v :: rest =>
    let p := gainDescentAux v rest
    if v - prev > 0 then (v - prev + p.1, p.2) else (p.1, v - prev + p.2)

/-- The elevation_gain accumulated by compute_difficulty_between_points over
one list of valid samples. -/
def gainOf (vals : List ℚ) : ℚ :=
  match vals with
  | [] => 0
  | v :: rest => (gainDescentAux v rest).1

/-- The descent accumulated by compute_difficulty_between_points over one
list of valid samples. -/
def descentOf (vals : List ℚ) : ℚ :=
  match vals with
  | [] => 0
  | v :: rest => (gainDescentAux v rest).2

/-- Sum of absolute sampled values: np.nansum(np.abs(values)). -/
def absSum (vals : List ℚ) : ℚ := (vals.map (fun v => |v|)).sum

/-- Python dict assignment d[k] = v on an insertion ordered association
list: replace the value of an existing key in place, else append. -/
def dictUpsert {α : Type} (m : List (ℚ × α)) (k : ℚ) (v : α) : List (ℚ × α) :=
  if m.any (fun p => p.1 == k) then
    m.map (fun p => if p.1 == k then (k, v) else p)
  else m ++ [(k, v)]

/-- Python dict lookup d.get(k, default). -/
def dictGetD {α : Type} (m : List (ℚ × α)) (k : ℚ) (d : α) : α :=
  match m.find? (fun p => p.1 == k) with
  | some p => p.2
  | none => d

/-- Python dict lookup d.get(k) returning None when absent. -/
def dictGet? {α : Type} (m : List (ℚ × α)) (k : ℚ) : Option α :=
  (m.find? (fun p => p.1 == k)).map (fun p => p.2)

/-- A difficulty-at-distance map: position along the trail to cumulative
difficulty (difficulty_at_distances in dijkstra.py). -/
abbrev DiffMap := List (ℚ × QI)

/-- Accumulator of the segment loop of compute_difficulty_between_points:
the emitted records, the difficulty at distance dict, and the four running
totals. -/
structure CompAcc where
  recs : List SegRec
  dmap : DiffMap
  tDiff : QI
  tDist : QI
  tGain : QI
  tDesc : QI

/-- Loop body of compute_difficulty_between_points over the (possibly
reversed) segment list: skip a step with no valid sample, otherwise extend
the running totals and emit one record keyed by start distance in the
forward direction and end distance in the backward direction. -/
def compAux (env : GeoEnv) (t i j : Nat) (distRoad : QI) (dir : Int) :
    CompAcc → List (ℚ × ℚ) → CompAcc
  | acc, [] => acc
  | acc, (a, b) :: rest =>
    let vals := validSamples env t a b
    if vals.isEmpty then
      compAux env t i j distRoad dir acc rest
    else
      let sd := absSum vals
      let g := gainOf vals
      let dsc := descentOf vals
      let len := env.segLen t a b
      let tDiff := acc.tDiff + (sd : ℚ)
      let tDist := acc.tDist + (len : ℚ)
      let tGain := acc.tGain + (g : ℚ)
      let tDesc := acc.tDesc + (dsc : ℚ)
      let key := if dir = 1 then a else b
      let rec0 : SegRec :=
        { gStart := a, gEnd := b, segDiff := sd, totalDiff := tDiff,
          positSeg := key, distRoad := distRoad, trailId := t,
          startCP := i, endCP := j, segLength := len, elevGain := g,
          totalElevGain := tGain, descent := dsc, totalDescent := tDesc,
          totalDist := tDist }
      compAux env t i j distRoad dir
        { recs := acc.recs ++ [rec0], dmap := dictUpsert acc.dmap key tDiff,
          tDiff := tDiff, tDist := tDist, tGain := tGain, tDesc := tDesc }
        rest

/-- Result bundle of compute_difficulty_between_points. -/
structure CompRes where
  recs : List SegRec
  dmap : DiffMap
  totalDiff : QI
  totalDist : QI
  totalElevGain : QI
  totalDescent : QI

/-- Embedding of compute_difficulty_between_points (dijkstra.py): project
both cutting points onto the trail, build the 50 unit steps from the smaller
to the larger projection, reverse them when traveling against the natural
direction, and accumulate difficulty, distance and elevation metrics seeded
from the current best values of the source cutting point cp. -/
def computeDifficulty (env : GeoEnv) (cp : CPState) (i j t : Nat) : CompRes :=
  let di := env.projCP t i
  let dj := env.projCP t j
  let mind := min di dj
  let maxd := max di dj
  let steps0 := buildSteps mind maxd
  let dir : Int := if |di - mind| < 1 / 1000000 then 1 else -1
  let steps := if dir = -1 then steps0.reverse else steps0
  let res := compAux env t i j cp.distOnRoads dir
    { recs := [], dmap := [], tDiff := cp.bestDiff, tDist := cp.totalDist,
      tGain := cp.totalElevGain, tDesc := cp.totalDescent } steps
  { recs := res.recs, dmap := res.dmap, totalDiff := res.tDiff,
    totalDist := res.tDist, totalElevGain := res.tGain,
    totalDescent := res.tDesc }

/-- Predicate of remove_segments_between (dijkstra.py): the segment joins the
two given cutting points on the given trail, in either orientation. -/
def segBetween (s : SegRec) (tid c1 c2 : Nat) : Bool :=
  s.trailId == tid &&
    ((s.startCP == c1 && s.endCP == c2) || (s.startCP == c2 && s.endCP == c1))

/-- Embedding of remove_segments_between (dijkstra.py). -/
def removeSegmentsBetween (segs : List SegRec) (tid c1 c2 : Nat) :
    List SegRec :=
  segs.filter (fun s => !segBetween s tid c1 c2)

/-- The dict comprehension seg_by_dist of merge_segments_and_difficulties:
segments keyed by their position along the trail, later entries
overwriting earlier ones. -/
def segsByDist (segs : List SegRec) : List (ℚ × SegRec) :=
  segs.foldl (fun m s => dictUpsert m s.positSeg s) []

/-- Loop of merge_segments_and_difficulties over the sorted key set: at each
key keep the forward value when it is less than or equal to the backward
value, else the backward value, and collect the segment found in the chosen
direction dict when there is one. -/
def mergeAux (mapF mapB : DiffMap) (segF segB : List (ℚ × SegRec)) :
    List ℚ → List SegRec × DiffMap
  | [] => ([], [])
  | d :: rest =>
    let pr := mergeAux mapF mapB segF segB rest
    let vF := dictGetD mapF d ⊤
    let vB := dictGetD mapB d ⊤
    if vF ≤ vB then
      (match dictGet? segF d with
        | some s => s :: pr.1
        | none => pr.1, (d, vF) :: pr.2)
    else
      (match dictGet? segB d with
        | some s => s :: pr.1
        | none => pr.1, (d, vB) :: pr.2)

/-- Embedding of merge_segments_and_difficulties (dijkstra.py). -/
def mergeSegmentsAndDifficulties (segsF : List SegRec) (mapF : DiffMap)
    (segsB : List SegRec) (mapB : DiffMap) : List SegRec × DiffMap :=
  let allD := ((mapF.map Prod.fst ++ mapB.map Prod.fst).dedup).insertionSort
    (fun x y => x ≤ y)
  if allD.isEmpty then ([], [])
  else mergeAux mapF mapB (segsByDist segsF) (segsByDist segsB) allD

/-- Per trail difficulty maps (trail_difficulty_by_distance), keyed by trail
id. -/
abbrev TrailMaps := List (Nat × DiffMap)

/-- Python dict assignment for the trail keyed maps. -/
def tmapSet (m : TrailMaps) (t : Nat) (v : DiffMap) : TrailMaps :=
  if m.any (fun p => p.1 == t) then
    m.map (fun p => if p.1 == t then (t, v) else p)
  else m ++ [(t, v)]

/-- Whole mutable state touched by the propagation engine: the cutting point
cost fields, the priority queue contents, the accumulated segment
collection, and the per trail difficulty maps. -/
structure EngState where
  cps : Nat → CPState
  queue : List Nat
  segs : List SegRec
  tmaps : TrailMaps

/-- Body of the inner loop of process_neighbors (dijkstra.py) for one
neighbor j reached from i over one trail t: compute the forward difficulty,
either adopt it when it is better or equal, or compute the opposite
direction and merge when the two directions disagree; in every case push the
neighbor onto the queue. -/
def relaxNeighborTrail (env : GeoEnv) (st : EngState) (i j t : Nat) :
    EngState :=
  let cpi := st.cps i
  let cpj := st.cps j
  let r := computeDifficulty env cpi i j t
  if r.totalDiff ≤ cpj.bestDiff then
    { cps := Function.update st.cps j
        { bestDiff := r.totalDiff, distOnRoads := cpi.distOnRoads,
          totalDist := r.totalDist, totalElevGain := r.totalElevGain,
          totalDescent := r.totalDescent },
      queue := st.queue ++ [j],
      segs := st.segs ++ r.recs,
      tmaps := tmapSet st.tmaps t r.dmap }
  else
    let r2 := computeDifficulty env cpj j i t
    if cpi.bestDiff < r2.totalDiff then
      let m := mergeSegmentsAndDifficulties r.recs r.dmap r2.recs r2.dmap
      { cps := st.cps,
        queue := st.queue ++ [j],
        segs := removeSegmentsBetween st.segs t j i ++ m.1,
        tmaps := tmapSet st.tmaps t m.2 }
    else
      { st with queue := st.queue ++ [j] }

/-- Embedding of process_neighbors (dijkstra.py): fold the relaxation over
the neighbor dictionary entry of the popped point i, trail by trail. -/
def processNeighbors (env : GeoEnv) (adj : Nat → List (Nat × List Nat))
    (st : EngState) (i : Nat) : EngState :=
  (adj i).foldl
    (fun st1 jt => jt.2.foldl (fun st2 t => relaxNeighborTrail env st2 i jt.1 t) st1)
    st

/-- Index of the first queue entry whose current best difficulty is
minimal, modelling the heap pop of the lazy deletion Dijkstra loop. -/
def popMinIdx (cps : Nat → CPState) : List Nat → Option Nat
  | [] => none
  | x :: xs =>
    match popMinIdx cps xs with
    | none => some x
    | some y => if (cps y).bestDiff < (cps x).bestDiff then some y else some x

/-- Embedding of the main while loop of dijkstra (dijkstra.py) with explicit
fuel: pop a minimal entry, skip it when already visited, otherwise mark it
visited and relax its neighbors. -/
def dijkstraLoop (env : GeoEnv) (adj : Nat → List (Nat × List Nat)) :
    Nat → EngState → List Nat → EngState × List Nat
  | 0, st, vis => (st, vis)
  | Nat.succ fuel, st, vis =>
    match popMinIdx st.cps st.queue with
    | none => (st, vis)
    | some i =>
      let st1 := { st with queue := st.queue.erase i }
      if i ∈ vis then dijkstraLoop env adj fuel st1 vis
      else dijkstraLoop env adj fuel (processNeighbors env adj st1 i) (vis ++ [i])

/-! Roads module (roads.py). -/

/-- A 2D point of the working coordinate system. -/
abbrev Pt := ℚ × ℚ

/-- One geometry row of the roads GeoDataFrame as seen by dist_on_road
(roads.py): whether it is a LineString, its distance to a query point, the
projection of a query point onto it, and interpolation along it. These four
operations belong to the external shapely layer. -/
structure RoadGeom where
  isLine : Bool
  distToPt : Pt → ℚ
  projectPt : Pt → ℚ
  interp : ℚ → Pt

/-- Index of the first minimal entry of a nonempty list (pandas idxmin). -/
def idxminAux (best : ℚ) (bestIdx cur : Nat) : List ℚ → Nat
  | [] => bestIdx
  | y :: ys =>
    if y < best then idxminAux y cur (cur + 1) ys
    else idxminAux best bestIdx (cur + 1) ys

/-- Index of the first minimal entry, none for the empty list. -/
def idxmin : List ℚ → Option Nat
  | [] => none
  | x :: xs => some (idxminAux x 0 1 xs)

/-- The accumulation loop of dist_on_road: total of the lengths of the two
point LineStrings built between consecutive interpolation distances. -/
def sumStepLens (g : RoadGeom) (pdist : Pt → Pt → ℚ) (mind maxd : ℚ) : ℚ :=
  ((buildSteps mind maxd).map (fun ab => pdist (g.interp ab.1) (g.interp ab.2))).sum

/-- Embedding of dist_on_road (roads.py): pick the single road geometry
closest to the cutting point, return float("inf") when the road layer is
empty (the idxmin exception is caught) or when that geometry is not a
LineString, otherwise project both the cutting point and the start point
onto that one geometry and accumulate the interpolated step lengths between
the two projections. -/
def distOnRoad (roads : List RoadGeom) (pdist : Pt → Pt → ℚ)
    (cpPos startPos : Pt) : QI :=
  match idxmin (roads.map (fun g => g.distToPt cpPos)) with
  | none => ⊤
  | some k =>
    match roads.get? k with
    | none => ⊤
    | some g =>
      if g.isLine then
        let dc := g.projectPt cpPos
        let ds := g.projectPt startPos
        ((sumStepLens g pdist (min dc ds) (max dc ds) : ℚ) : QI)
      else ⊤

/-- Embedding of initialize_queue (dijkstra.py): every starting cutting
point gets zero cost metrics and its road distance from dist_on_road, and is
pushed onto the queue. -/
def seedQueue (roads : List RoadGeom) (pdist : Pt → Pt → ℚ)
    (pos : Nat → Pt) (startPt : Pt) (starts : List Nat) (st : EngState) :
    EngState :=
  starts.foldl
    (fun s i =>
      { s with
        cps := Function.update s.cps i
          { bestDiff := 0, totalDist := 0, totalElevGain := 0,
            totalDescent := 0,
            distOnRoads := distOnRoad roads pdist (pos i) startPt },
        queue := s.queue ++ [i] })
    st

/-- Modelled from the spec, for comparison with distOnRoad: the spec of
claim C3 describes the seed road distance as a shortest path distance over a
graph built from the road layer line segments weighted by Euclidean segment
length, with +inf when no path exists. This is that graph shortest path,
computed by n rounds of Bellman-Ford relaxation over an explicit weighted
edge list (edges are traversable in both directions). -/
def specRoadNetworkDist (n : Nat) (edges : List (Nat × Nat × ℚ)) (s : Nat) :
    Nat → QI :=
  let d0 : Nat → QI := fun v => if v == s then (0 : QI) else ⊤
  let relaxOnce : (Nat → QI) → Nat → QI := fun d v =>
    edges.foldl
      (fun acc e =>
        let cand1 : QI := if e.2.1 == v then d e.1 + (e.2.2 : ℚ) else ⊤
        let cand2 : QI := if e.1 == v then d e.2.1 + (e.2.2 : ℚ) else ⊤
        min acc (min cand1 cand2))
      (d v)
  Nat.rec d0 (fun _ d => fun v => relaxOnce d v) n

/-! Cutting point builder (cutting_points.py) and graph assembler
(graph.py). The neighbor dictionaries dict_neighbors are insertion ordered
association lists from neighbor index to the list of connecting trail
ids, one such dictionary per cutting point. -/

/-- Neighbor dictionary of one cutting point. -/
abbrev NbrMap := List (Nat × List Nat)

/-- Neighbor dictionaries of all cutting points, by index. -/
abbrev NbrState := Nat → NbrMap

/-- The empty neighbor state: every cutting point starts with an empty
defaultdict. -/
def emptyNbrs : NbrState := fun _ => []

/-- Membership test: neighbor key present in a dict_neighbors. -/
def nbrHasKey (m : NbrMap) (k : Nat) : Bool := m.any (fun p => p.1 == k)

/-- Lookup dict_neighbors[k] with the defaultdict default []. -/
def nbrGet (m : NbrMap) (k : Nat) : List Nat :=
  match m.find? (fun p => p.1 == k) with
  | some p => p.2
  | none => []

/-- Assignment dict_neighbors[k] = v on an insertion ordered dict. -/
def nbrSet (m : NbrMap) (k : Nat) (v : List Nat) : NbrMap :=
  if nbrHasKey m k then m.map (fun p => if p.1 == k then (k, v) else p)
  else m ++ [(k, v)]

/-- The unconditional dict_neighbors[k].append(t) used by the intra trail
connection loops of build_cutting_points and build_graph_from_trails. -/
def nbrAppend (m : NbrMap) (k t : Nat) : NbrMap :=
  nbrSet m k (nbrGet m k ++ [t])

/-- Embedding of the bidirectional reference block of connect_to_neighbors
(cutting_points.py) for one endpoint ep, one resolved neighbor point ne, the
trail being processed and the nearby neighbor trail: ensure both keys exist,
then on the endpoint side append the neighbor trail when the current trail
is not yet in the list, and on the neighbor side append the current trail
when the neighbor trail is not yet in the list. -/
def connectStep (trailCur trailNb ep ne : Nat) (st : NbrState) : NbrState :=
  let m1 := if nbrHasKey (st ep) ne then st ep else nbrSet (st ep) ne []
  let m2 :=
    if trailCur ∈ nbrGet m1 ne then m1 else nbrSet m1 ne (nbrGet m1 ne ++ [trailNb])
  let st1 := Function.update st ep m2
  let m3 := if nbrHasKey (st1 ne) ep then st1 ne else nbrSet (st1 ne) ep []
  let m4 :=
    if trailNb ∈ nbrGet m3 ep then m3 else nbrSet m3 ep (nbrGet m3 ep ++ [trailCur])
  Function.update st1 ne m4

/-- One iteration of the intra trail connection loops: the two unconditional
appends cp1.dict_neighbors[cp2].append(trail) and
cp2.dict_neighbors[cp1].append(trail), shared verbatim by
build_cutting_points (cutting_points.py) and build_graph_from_trails
(graph.py). -/
def appendPairBoth (t a b : Nat) (st : NbrState) : NbrState :=
  let st1 := Function.update st a (nbrAppend (st a) b t)
  Function.update st1 b (nbrAppend (st1 b) a t)

/-- Consecutive pairs of an ordered cutting point list. -/
def consecPairs (cps : List Nat) : List (Nat × Nat) := cps.zip cps.tail

/-- Embedding of the intra trail connection loop of build_cutting_points
(cutting_points.py, the loop after ordering). -/
def intraConnectTrail (t : Nat) (cps : List Nat) (st : NbrState) : NbrState :=
  (consecPairs cps).foldl (fun s p => appendPairBoth t p.1 p.2 s) st

/-- Embedding of the neighbor dictionary updates of the intra trail edge
loop of build_graph_from_trails (graph.py): the same two appends again
(the Graph edge insertion itself does not touch dict_neighbors). -/
def graphPhaseTrail (t : Nat) (cps : List Nat) (st : NbrState) : NbrState :=
  (consecPairs cps).foldl (fun s p => appendPairBoth t p.1 p.2 s) st

/-- Embedding of the reuse scan of find_or_create_cutting_point
(cutting_points.py): walk the existing cutting point collection in its
iteration order and return the first point whose distance to the candidate
position is below the 0.2 tolerance. -/
def findOrCreateScan (pdist : Pt → Pt → ℚ) (order : List Pt) (p : Pt) :
    Option Pt :=
  order.find? (fun c => decide (pdist c p < 1 / 5))

/-! Buffer analyzer (buffer.py) and pipeline (pipeline.py). -/

/-- The local difficulty assigned to one buffer cell by analyze_cells
(buffer.py): alt * dist_to_seg * 0.8 + nearest_seg total_diff * 0.2 with
both weights hardcoded. -/
def analyzeCellDifficulty (alt distToSeg totalDiff : ℚ) : ℚ :=
  alt * distToSeg * (8 / 10) + totalDiff * (2 / 10)

/-- Modelled from the spec, for comparison with analyzeCellDifficulty: the
cell formula of claim C9 with the two weights taken as configuration
inputs. -/
def specCellDifficulty (alt distToSeg totalDiff wOn wOff : ℚ) : ℚ :=
  alt * distToSeg * wOn + totalDiff * wOff

/-- The parameter list of analyze_cells (buffer.py): it accepts no weight
configuration. -/
def analyzeCellsParams : List String :=
  ["mask", "transform", "raster_altitude", "segments"]

/-- The parameter list of CuttingPoint.__init__ (classes.py), self
excluded. -/
def cuttingPointInitParams : List String := ["geom", "roads"]

/-- The keyword arguments of the CuttingPoint constructor call inside
find_or_create_cutting_point (cutting_points.py). -/
def findOrCreateCallKwargs : List String := ["geom", "roads", "roads_threshold"]

/-- Python call semantics for keyword arguments: the call succeeds only when
every keyword is an accepted parameter name; otherwise it raises TypeError
(unexpected keyword argument). -/
def pyKwargsAccepted (kwargs params : List String) : Bool :=
  kwargs.all (fun k => params.contains k)

/-- The body of is_connection_to_road in CuttingPoint.__init__ (classes.py):
the minimum distance from the point to the road layer compared against the
hardcoded constant 40; no threshold parameter reaches this code. -/
def isConnectionToRoadInit (minRoadDist : ℚ) : Bool := decide (minRoadDist < 40)

/-- Python exceptions relevant to the pipeline entry point. -/
inductive PyException where
  | nameErr (n : String)
  | valueErr (msg : String)
deriving DecidableEq

/-- Global namespace of the pipeline module (pipeline.py) at call time: its
own imports and definitions plus every public name of the eight source
modules it star imports (buffer, classes, cutting_points, dijkstra, graph,
map_utils, plot_utils, roads); underscore names are excluded by the star
rule. -/
def pipelineGlobals : List String :=
  ["logging", "os", "gpd", "mask", "plotting_extent", "LineString", "Point",
   "load_input_data", "run_difficulty_analysis", "study_area_displaying",
   "compute_alt_out_trail", "analyze_study_points",
   "project_point_on_nearest_road",
   "rasterio", "rasterize", "TARGET_CRS", "generate_buffer_grid",
   "analyze_cells",
   "defaultdict", "CuttingPoint", "Graph", "Trail", "dataclass", "Any",
   "SegmentResult",
   "logger", "build_cutting_points", "create_cutting_points",
   "find_or_create_cutting_point", "connect_to_neighbors",
   "order_cutting_points_along_trail",
   "heapq", "time", "np", "dist_on_road", "build_segment",
   "sample_valid_raster_values", "initialize_queue",
   "compute_difficulty_between_points", "remove_segments_between",
   "process_neighbors", "dijkstra", "merge_segments_and_difficulties",
   "build_graph_from_trails", "add_intertrail_connections",
   "Path", "pd", "rio_mask", "MultiLineString", "COUNTRY", "BASE_DIR",
   "PROJECT_ROOT", "DATA_DIR", "TRAILS_PATH", "ROADS_PATH", "RASTER_PATH",
   "ORIGINAL_CRS", "read_and_prepare_layers", "show_landform_utils",
   "clip_layers", "mask_raster", "add_id_column", "decompose_multilines",
   "create_trails_dict", "generate_initial_points",
   "Optional", "Tuple", "List", "plt", "mcolors", "cm",
   "make_axes_locatable", "map_utils", "plot_study_area",
   "plot_segments_by_difficulty",
   "math", "create_tab_dist_on_roads"]

/-- Python tuple of a pair value, as the iterable that a multiple
assignment target unpacks. -/
def pyPairVals {α β : Type} (p : α × β) : List (α ⊕ β) := [.inl p.1, .inr p.2]

/-- Python iterable unpacking into n names: succeeds exactly when the
iterable has n elements, otherwise raises ValueError. -/
def unpackList {α : Type} (n : Nat) (l : List α) : Option (List α) :=
  if l.length = n then some l else none

/-- Engine run metrics record (dijkstra.py builds a metrics dict; its
contents are irrelevant here). -/
structure EngMetrics where
  cpsProcessed : Nat
  segmentsCreated : Nat
deriving DecidableEq

/-- Control flow model of run_difficulty_analysis (pipeline.py) around its
failure points, in source order: line 57 resolves the name box, line 60
returns the STUDY_AREA_OUTSIDE_RASTER status when the study area misses the
raster extent, line 69 resolves the name initialize_cutting_points, and
line 89 unpacks the dijkstra return tuple into three names. The propagation
result is abstracted as the pair dres that dijkstra would return. -/
def runDifficultyAnalysisModel (intersects : Bool)
    (dres : List SegRec × EngMetrics) :
    Except PyException (Option (List SegRec) × String) :=
  if pipelineGlobals.contains "box" then
    if intersects = false then Except.ok (none, "STUDY_AREA_OUTSIDE_RASTER")
    else if pipelineGlobals.contains "initialize_cutting_points" then
      match unpackList 3 (pyPairVals dres) with
      | some _ => Except.ok (some dres.1, "OK")
      | none => Except.error (.valueErr "not enough values to unpack")
    else Except.error (.nameErr "initialize_cutting_points")
  else Except.error (.nameErr "box")

/-! Concrete instantiations of the external geometry layer used by the
witnesses and counterexamples below. Every instantiation is chosen so that
each geometric operation is evaluated only at arguments where its exact
Euclidean value is the stated rational. -/

section Fixtures

attribute [local semireducible] Rat.add Rat.mul Rat.sub Rat.inv Rat.ofScientific

/-- Distance between two points, specialized to the horizontally aligned
point pairs at which it is evaluated in this file: for two points with
equal second coordinate the Euclidean distance is the absolute difference
of the first coordinates. -/
def pdistEx (p q : Pt) : ℚ := if p.2 = q.2 then |p.1 - q.1| else 0

/-- Geometry and raster environment of end to end scenario C of the spec:
one trail, cutting point 0 projected at distance 0 and cutting point 1 at
distance 50, 50 raster samples of value 2 along any built segment, segment
length equal to the distance span. -/
def envC : GeoEnv :=
  { projCP := fun _ i => if i = 1 then 50 else 0,
    segLen := fun _ a b => b - a,
    rawSamples := fun _ _ _ => List.replicate 50 2,
    nodata := -9999 }

/-- The seed cutting point of scenario C: all cost fields 0, road distance
5. -/
def cp0C : CPState := ⟨0, 0, 0, 0, (5 : ℚ)⟩

/-- Adjacency of scenario C: cutting point 0 neighbors cutting point 1 over
trail 0. -/
def adjC : Nat → List (Nat × List Nat) := fun i => if i = 0 then [(1, [0])] else []

/-- Engine state of scenario C before relaxing the seed. -/
def stC : EngState :=
  { cps := fun i => if i = 0 then cp0C else cpInit,
    queue := [0], segs := [], tmaps := [] }

/-- Geometry environment of the merge scenario: same two projections as
scenario C but a single raster sample of value 2 per built segment. -/
def envM : GeoEnv :=
  { projCP := fun _ i => if i = 1 then 50 else 0,
    segLen := fun _ a b => b - a,
    rawSamples := fun _ _ _ => [2],
    nodata := -9999 }

/-- Engine state driving the merge branch: the popped point 0 has best
difficulty 4 and its neighbor 1 has best difficulty 3, so the forward cost
4 + 2 = 6 is worse than 3 and the backward cost 3 + 2 = 5 exceeds 4. -/
def stM : EngState :=
  { cps := fun i =>
      if i = 0 then ⟨(4 : ℚ), 0, 0, 0, (0 : ℚ)⟩
      else if i = 1 then ⟨(3 : ℚ), 0, 0, 0, (0 : ℚ)⟩ else cpInit,
    queue := [], segs := [], tmaps := [] }

/-- Distance from a point to a horizontal road segment at height y0 spanning
first coordinates 0 to 100, valid for query points whose first coordinate
lies in that span. -/
def bandDistTo (y0 : ℚ) (p : Pt) : ℚ := |p.2 - y0|

/-- Projection onto a horizontal road segment spanning first coordinates 0
to 100. -/
def bandProj (p : Pt) : ℚ := min 100 (max 0 p.1)

/-- Interpolation along a horizontal road segment at height y0 spanning
first coordinates 0 to 100 (shapely clamps the distance to the segment). -/
def bandInterp (y0 d : ℚ) : Pt := (min 100 (max 0 d), y0)

/-- Road A of the road distance counterexample: the horizontal segment from
(0, 0) to (100, 0). -/
def roadA : RoadGeom := ⟨true, bandDistTo 0, bandProj, bandInterp 0⟩

/-- Road B of the road distance counterexample: the horizontal segment from
(0, 20) to (100, 20), disjoint from road A. -/
def roadB : RoadGeom := ⟨true, bandDistTo 20, bandProj, bandInterp 20⟩

/-- Weighted edges of the spec side road network graph for the two disjoint
roads A and B: vertices 0 and 1 are the two endpoints of road A, 2 and 3
the endpoints of road B, 4 is the query point (30, 1) attached to its
nearest geometry road A, 5 is the start point (70, 19) attached to its
nearest geometry road B. No edge joins the A component to the B component
because the two road segments are disjoint. -/
def cexEdges : List (Nat × Nat × ℚ) :=
  [(0, 1, 100), (2, 3, 100), (4, 0, 30), (4, 1, 70), (5, 2, 70), (5, 3, 30)]

/-- The engine state right after construction: every cutting point has the
constructor field values and nothing has been queued or emitted. -/
def engInit : EngState :=
  { cps := fun _ => cpInit, queue := [], segs := [], tmaps := [] }

end Fixtures

section ClaimTheorems

attribute [local semireducible] Rat.add Rat.mul Rat.sub Rat.inv Rat.ofScientific

set_option maxRecDepth 200000

/-- Claim C4: the spec states that connect_to_neighbors records a
bidirectional neighbor relationship in which both sides list the same
connecting trail, appended idempotently with no duplicates. The code is a
slip: the guard tests membership of the current trail but appends the
neighbor trail (and conversely on the other side). Evaluating the embedded
update at the failing input (a CuttingPoint index 7 shared as an endpoint
of trails 0 and 1, both within threshold of trail 2, resolving to the same
projected point index 8) shows that one call already records different
trails on the two sides, and that the second call duplicates trail 2 in
the endpoint list. -/
theorem claim_C4_thm :
    nbrGet ((connectStep 0 2 7 8 emptyNbrs) 7) 8 = [2]
    ∧ nbrGet ((connectStep 0 2 7 8 emptyNbrs) 8) 7 = [0]
    ∧ nbrGet ((connectStep 1 2 7 8 (connectStep 0 2 7 8 emptyNbrs)) 7) 8 = [2, 2]
    ∧ nbrGet ((connectStep 1 2 7 8 (connectStep 0 2 7 8 emptyNbrs)) 8) 7 = [0, 1] := by
  refine ⟨by decide, by decide, by decide, by decide⟩

/-- Claim C5: the claim states that run_difficulty_analysis either returns
the complete result set with status OK or the distinct status
STUDY_AREA_OUTSIDE_RASTER before propagation. Evaluating the control flow
model of pipeline.py shows that every invocation raises NameError instead:
the name box used at line 57 is absent from the module namespace, so even
the outside raster branch is unreachable; the name
initialize_cutting_points called at line 69 is also absent; and unpacking
the pair returned by dijkstra into the three names of line 89 fails for
every possible propagation result. -/
theorem claim_C5_thm :
    (∀ dres : List SegRec × EngMetrics,
        runDifficultyAnalysisModel true dres
            = Except.error (PyException.nameErr "box")
          ∧ runDifficultyAnalysisModel false dres
            = Except.error (PyException.nameErr "box"))
    ∧ pipelineGlobals.contains "box" = false
    ∧ pipelineGlobals.contains "initialize_cutting_points" = false
    ∧ (∀ p : List SegRec × EngMetrics, unpackList 3 (pyPairVals p) = none) := by
  exact ⟨fun dres => ⟨rfl, rfl⟩, by decide, by decide, fun p => rfl⟩

/-- Claim C7: the claim states that is_connection_to_road is true iff the
minimum road distance is below the configured roads_threshold passed into
the pipeline, not a hardcoded constant. In classes.py the constructor
accepts no threshold parameter, so the keyword argument roads_threshold
passed by find_or_create_cutting_point is rejected (TypeError), and the
constructor body compares against the hardcoded constant 40: a point at
distance 39 is marked road connected even though it is not below a
configured threshold of 10. -/
theorem claim_C7_thm :
    pyKwargsAccepted findOrCreateCallKwargs cuttingPointInitParams = false
    ∧ isConnectionToRoadInit 39 = true
    ∧ ¬ ((39 : ℚ) < 10)
    ∧ (∀ minDist : ℚ, isConnectionToRoadInit minDist = decide (minDist < 40)) := by
  exact ⟨by decide, by decide, by decide, fun _ => rfl⟩

/-- Claim C9: the claim states that analyze_cells combines altitude,
distance to the nearest segment and the segment difficulty using the two
configured weights. In buffer.py the function takes no weight parameters
and hardcodes the split 0.8 and 0.2, so for a cell with altitude 2,
distance 1 and nearest segment difficulty 1 it yields 9/5 while the
configured weights 1/2 and 1/2 (the session defaults of session_utils.py)
would yield 3/2. -/
theorem claim_C9_thm :
    analyzeCellsParams.contains "w_diff_on_tr" = false
    ∧ analyzeCellsParams.contains "w_diff_off_tr" = false
    ∧ analyzeCellDifficulty 2 1 1 = 9 / 5
    ∧ specCellDifficulty 2 1 1 (1 / 2) (1 / 2) = 3 / 2
    ∧ (9 / 5 : ℚ) ≠ 3 / 2 := by
  refine ⟨by decide, by decide, by decide, by decide, by decide⟩

/-- Each single relaxation of one neighbor over one trail never increases
the best difficulty of any cutting point: the only assignment is guarded by
the comparison best_diff >= final_diff and writes final_diff. -/
theorem relax_bestDiff_le (env : GeoEnv) (st : EngState) (i j t k : Nat) :
    ((relaxNeighborTrail env st i j t).cps k).bestDiff ≤ ((st.cps) k).bestDiff := by
  dsimp only [relaxNeighborTrail]
  split
  case isTrue h =>
    rcases eq_or_ne k j with rfl | hk
    · simpa [Function.update_same] using h
    · simp [Function.update_noteq hk]
  case isFalse h =>
    split
    · exact le_rfl
    · exact le_rfl

/-- Folding a step that never increases best difficulties never increases
best difficulties. -/
theorem foldl_bestDiff_le {α : Type} (f : EngState → α → EngState)
    (hf : ∀ s a k, ((f s a).cps k).bestDiff ≤ ((s.cps) k).bestDiff) :
    ∀ (l : List α) (s : EngState) (k : Nat),
      ((l.foldl f s).cps k).bestDiff ≤ ((s.cps) k).bestDiff := by
  intro l
  induction l with
  | nil => intro s k; exact le_rfl
  | cons a rest ih =>
    intro s k
    exact le_trans (ih (f s a) k) (hf s a k)

/-- process_neighbors never increases the best difficulty of any cutting
point. -/
theorem processNeighbors_bestDiff_le (env : GeoEnv)
    (adj : Nat → List (Nat × List Nat)) (st : EngState) (i k : Nat) :
    ((processNeighbors env adj st i).cps k).bestDiff ≤ ((st.cps) k).bestDiff := by
  unfold processNeighbors
  refine foldl_bestDiff_le _ ?_ (adj i) st k
  intro s a k2
  refine foldl_bestDiff_le _ ?_ a.2 s k2
  intro s2 t k3
  exact relax_bestDiff_le env s2 i a.1 t k3

/-- The whole lazy deletion Dijkstra loop never increases the best
difficulty of any cutting point, for every fuel and pop outcome. -/
theorem dijkstraLoop_bestDiff_le (env : GeoEnv)
    (adj : Nat → List (Nat × List Nat)) :
    ∀ (fuel : Nat) (st : EngState) (vis : List Nat) (k : Nat),
      (((dijkstraLoop env adj fuel st vis).1).cps k).bestDiff
        ≤ ((st.cps) k).bestDiff := by
  intro fuel
  induction fuel with
  | zero => intro st vis k; exact le_rfl
  | succ n ih =>
    intro st vis k
    show (((match popMinIdx st.cps st.queue with
      | none => (st, vis)
      | some i =>
        let st1 := { st with queue := st.queue.erase i }
        if i ∈ vis then dijkstraLoop env adj n st1 vis
        else dijkstraLoop env adj n (processNeighbors env adj st1 i)
          (vis ++ [i])).1).cps k).bestDiff ≤ ((st.cps) k).bestDiff
    cases hpop : popMinIdx st.cps st.queue with
    | none => exact le_rfl
    | some idx =>
      dsimp only
      split
      · exact ih { st with queue := st.queue.erase idx } vis k
      · exact le_trans
          (ih (processNeighbors env adj { st with queue := st.queue.erase idx } idx)
            (vis ++ [idx]) k)
          (processNeighbors_bestDiff_le env adj
            { st with queue := st.queue.erase idx } idx k)

/-- Claim C6: best_diff is monotonically non-increasing over a propagation
run. Every assignment site of the engine replaces the current value with a
smaller or equal one: each single neighbor relaxation, each full
process_neighbors call, every run of the Dijkstra loop from any state, and
the seeding of initialize_queue applied to the constructor initialized
state (where every best_diff is infinite). -/
theorem claim_C6 :
    (∀ (env : GeoEnv) (st : EngState) (i j t k : Nat),
        ((relaxNeighborTrail env st i j t).cps k).bestDiff
          ≤ ((st.cps) k).bestDiff)
    ∧ (∀ (env : GeoEnv) (adj : Nat → List (Nat × List Nat)) (st : EngState)
        (i k : Nat),
        ((processNeighbors env adj st i).cps k).bestDiff
          ≤ ((st.cps) k).bestDiff)
    ∧ (∀ (env : GeoEnv) (adj : Nat → List (Nat × List Nat)) (fuel : Nat)
        (st : EngState) (vis : List Nat) (k : Nat),
        (((dijkstraLoop env adj fuel st vis).1).cps k).bestDiff
          ≤ ((st.cps) k).bestDiff)
    ∧ (∀ (roads : List RoadGeom) (pdist : Pt → Pt → ℚ) (pos : Nat → Pt)
        (startPt : Pt) (starts : List Nat) (k : Nat),
        ((seedQueue roads pdist pos startPt starts engInit).cps k).bestDiff
          ≤ ((engInit.cps) k).bestDiff) := by
  refine ⟨relax_bestDiff_le, processNeighbors_bestDiff_le,
    dijkstraLoop_bestDiff_le, ?_⟩
  intro roads pdist pos startPt starts k
  exact le_top

/-- Spec side formulation of the elevation deltas: the differences between
consecutive samples, values[i] - values[i-1] for i from 1. -/
def consecDeltas (vals : List ℚ) : List ℚ :=
  (vals.tail.zip vals).map (fun p => p.1 - p.2)

/-- Unfolding of consecDeltas on two leading samples. -/
theorem consecDeltas_cons_cons (prev v : ℚ) (rest : List ℚ) :
    consecDeltas (prev :: v :: rest) = (v - prev) :: consecDeltas (v :: rest) := by
  simp [consecDeltas]

/-- The accumulator loop of the elevation tracking equals the sums of the
filtered delta lists: positive deltas on the left, strictly negative deltas
on the right (a zero delta lands in the descent branch of the code but
contributes nothing to the sum). -/
theorem gainDescentAux_spec :
    ∀ (rest : List ℚ) (prev : ℚ),
      (gainDescentAux prev rest).1
          = ((consecDeltas (prev :: rest)).filter (fun x => decide (0 < x))).sum
        ∧ (gainDescentAux prev rest).2
          = ((consecDeltas (prev :: rest)).filter (fun x => decide (x < 0))).sum := by
  intro rest
  induction rest with
  | nil => intro prev; simp [gainDescentAux, consecDeltas]
  | cons v rest ih =>
    intro prev
    have h := ih v
    rw [consecDeltas_cons_cons]
    by_cases hpos : v - prev > 0
    · have hneg : ¬ (v - prev < 0) := by linarith
      simp [gainDescentAux, hpos, hneg, h.1, h.2]
    · rcases lt_or_eq_of_le (not_lt.mp hpos) with hlt | heq
      · simp [gainDescentAux, hpos, hlt, h.1, h.2]
      · simp [gainDescentAux, hpos, heq.symm, h.1, h.2, sub_eq_zero.mpr rfl]

/-- gainOf is the sum of the positive deltas between consecutive valid
samples. -/
theorem gainOf_eq (vals : List ℚ) :
    gainOf vals = ((consecDeltas vals).filter (fun x => decide (0 < x))).sum := by
  cases vals with
  | nil => simp [gainOf, consecDeltas]
  | cons v rest => exact (gainDescentAux_spec rest v).1

/-- descentOf is the sum of the negative deltas between consecutive valid
samples, kept negative. -/
theorem descentOf_eq (vals : List ℚ) :
    descentOf vals = ((consecDeltas vals).filter (fun x => decide (x < 0))).sum := by
  cases vals with
  | nil => simp [descentOf, consecDeltas]
  | cons v rest => exact (gainDescentAux_spec rest v).2

/-- Cumulative relation between two consecutive emitted segment records:
each cumulative field of the second extends the corresponding cumulative
field of the first by the per segment quantity of the second. -/
def stepLink (r1 r2 : SegRec) : Prop :=
  r2.totalDiff = r1.totalDiff + (r2.segDiff : ℚ)
  ∧ r2.totalDist = r1.totalDist + (r2.segLength : ℚ)
  ∧ r2.totalElevGain = r1.totalElevGain + (r2.elevGain : ℚ)
  ∧ r2.totalDescent = r1.totalDescent + (r2.descent : ℚ)

/-- Per record formulas of the segment cost model: the record was produced
from a step with at least one valid sample, its segment difficulty is the
sum of the absolute valid samples, and its elevation fields are the loop
accumulations over the valid samples of its own geometry. -/
def recFormulas (env : GeoEnv) (t : Nat) (r : SegRec) : Prop :=
  validSamples env t r.gStart r.gEnd ≠ []
  ∧ r.segDiff = absSum (validSamples env t r.gStart r.gEnd)
  ∧ r.elevGain = gainOf (validSamples env t r.gStart r.gEnd)
  ∧ r.descent = descentOf (validSamples env t r.gStart r.gEnd)

/-- The first emitted record continues the four seed totals. -/
def seededFrom (b d g ds : QI) (r : SegRec) : Prop :=
  r.totalDiff = b + (r.segDiff : ℚ)
  ∧ r.totalDist = d + (r.segLength : ℚ)
  ∧ r.totalElevGain = g + (r.elevGain : ℚ)
  ∧ r.totalDescent = ds + (r.descent : ℚ)

/-- Last element of a list with one element appended. -/
theorem getLast?_append_singleton {α : Type} (l : List α) (x : α) :
    (l ++ [x]).getLast? = some x := by
  induction l with
  | nil => rfl
  | cons a rest ih =>
    cases rest with
    | nil => rfl
    | cons b rest2 => simpa using ih

/-- Invariant of the segment loop of compute_difficulty_between_points: the
emitted records stay chained by the cumulative relation, satisfy the per
record formulas, start from the seed totals, and the running difficulty
total equals the seed plus the sum of the emitted segment difficulties. -/
theorem compAux_inv (env : GeoEnv) (t i j : Nat) (dr : QI) (dir : Int)
    (b d g ds : QI) :
    ∀ (steps : List (ℚ × ℚ)) (acc : CompAcc),
      List.Chain' stepLink acc.recs →
      (∀ la ∈ acc.recs.getLast?,
        la.totalDiff = acc.tDiff ∧ la.totalDist = acc.tDist
          ∧ la.totalElevGain = acc.tGain ∧ la.totalDescent = acc.tDesc) →
      (∀ r ∈ acc.recs, recFormulas env t r) →
      (∀ hd ∈ acc.recs.head?, seededFrom b d g ds hd) →
      (acc.recs = [] →
        acc.tDiff = b ∧ acc.tDist = d ∧ acc.tGain = g ∧ acc.tDesc = ds) →
      acc.tDiff = b + (((acc.recs.map SegRec.segDiff).sum : ℚ) : QI) →
      List.Chain' stepLink (compAux env t i j dr dir acc steps).recs
      ∧ (∀ la ∈ (compAux env t i j dr dir acc steps).recs.getLast?,
          la.totalDiff = (compAux env t i j dr dir acc steps).tDiff
            ∧ la.totalDist = (compAux env t i j dr dir acc steps).tDist
            ∧ la.totalElevGain = (compAux env t i j dr dir acc steps).tGain
            ∧ la.totalDescent = (compAux env t i j dr dir acc steps).tDesc)
      ∧ (∀ r ∈ (compAux env t i j dr dir acc steps).recs, recFormulas env t r)
      ∧ (∀ hd ∈ (compAux env t i j dr dir acc steps).recs.head?,
          seededFrom b d g ds hd)
      ∧ ((compAux env t i j dr dir acc steps).recs = [] →
          (compAux env t i j dr dir acc steps).tDiff = b
            ∧ (compAux env t i j dr dir acc steps).tDist = d
            ∧ (compAux env t i j dr dir acc steps).tGain = g
            ∧ (compAux env t i j dr dir acc steps).tDesc = ds)
      ∧ (compAux env t i j dr dir acc steps).tDiff
          = b + ((((compAux env t i j dr dir acc steps).recs.map
              SegRec.segDiff).sum : ℚ) : QI) := by
  intro steps
  induction steps with
  | nil =>
    intro acc h1 h2 h3 h4 h5 h6
    exact ⟨h1, h2, h3, h4, h5, h6⟩
  | cons ab rest ih =>
    intro acc h1 h2 h3 h4 h5 h6
    obtain ⟨a, bb⟩ := ab
    show List.Chain' stepLink (compAux env t i j dr dir acc ((a, bb) :: rest)).recs ∧ _
    rw [compAux]
    by_cases hv : (validSamples env t a bb).isEmpty
    · simp only [hv, if_true]
      exact ih acc h1 h2 h3 h4 h5 h6
    · simp only [hv, if_false]
      have hvne : validSamples env t a bb ≠ [] := by
        intro hc; rw [hc] at hv; exact hv rfl
      refine ih _ ?_ ?_ ?_ ?_ ?_ ?_
      · rw [List.chain'_append]
        refine ⟨h1, List.chain'_singleton _, ?_⟩
        intro y hy z hz
        simp only [List.head?_cons, Option.mem_def, Option.some.injEq] at hz
        subst hz
        have hy2 := h2 y hy
        exact ⟨by simp [hy2.1], by simp [hy2.2.1],
          by simp [hy2.2.2.1], by simp [hy2.2.2.2]⟩
      · intro la hla
        rw [getLast?_append_singleton] at hla
        simp only [Option.mem_def, Option.some.injEq] at hla
        subst hla
        exact ⟨rfl, rfl, rfl, rfl⟩
      · intro r hr
        rcases List.mem_append.mp hr with hr1 | hr2
        · exact h3 r hr1
        · simp only [List.mem_singleton] at hr2
          subst hr2
          exact ⟨hvne, rfl, rfl, rfl⟩
      · intro hd hhd
        cases hrecs : acc.recs with
        | nil =>
          rw [hrecs] at hhd
          simp only [List.nil_append, List.head?_cons, Option.mem_def,
            Option.some.injEq] at hhd
          subst hhd
          obtain ⟨e1, e2, e3, e4⟩ := h5 hrecs
          exact ⟨by simp [e1], by simp [e2], by simp [e3], by simp [e4]⟩
        | cons c cs =>
          rw [hrecs] at hhd
          simp only [List.cons_append, List.head?_cons, Option.mem_def,
            Option.some.injEq] at hhd
          subst hhd
          refine h4 _ ?_
          rw [hrecs]
          simp
      · intro hc
        exact absurd hc (by simp)
      · show acc.tDiff + ((absSum (validSamples env t a bb) : ℚ) : QI) = _
        rw [h6]
        simp only [List.map_append, List.map_cons, List.map_nil,
          List.sum_append, List.sum_cons, List.sum_nil, add_zero]
        rw [add_assoc]
        norm_cast

/-- Characterization of compute_difficulty_between_points: every emitted
record satisfies the per record formulas, adjacent records are chained by
the cumulative relation, the first record continues the seed totals of the
source cutting point, and the returned final difficulty is the seed plus
the sum of the emitted segment difficulties. -/
theorem computeDifficulty_spec (env : GeoEnv) (cp : CPState) (i j t : Nat) :
    (∀ r ∈ (computeDifficulty env cp i j t).recs, recFormulas env t r)
    ∧ List.Chain' stepLink (computeDifficulty env cp i j t).recs
    ∧ (∀ hd ∈ (computeDifficulty env cp i j t).recs.head?,
        seededFrom cp.bestDiff cp.totalDist cp.totalElevGain cp.totalDescent hd)
    ∧ (computeDifficulty env cp i j t).totalDiff
        = cp.bestDiff
          + ((((computeDifficulty env cp i j t).recs.map SegRec.segDiff).sum : ℚ) : QI) := by
  have h := compAux_inv env t i j cp.distOnRoads
    (if |env.projCP t i - min (env.projCP t i) (env.projCP t j)| < 1 / 1000000
      then (1 : Int) else -1)
    cp.bestDiff cp.totalDist cp.totalElevGain cp.totalDescent
    (if (if |env.projCP t i - min (env.projCP t i) (env.projCP t j)| < 1 / 1000000
          then (1 : Int) else -1) = -1
      then (buildSteps (min (env.projCP t i) (env.projCP t j))
        (max (env.projCP t i) (env.projCP t j))).reverse
      else buildSteps (min (env.projCP t i) (env.projCP t j))
        (max (env.projCP t i) (env.projCP t j)))
    { recs := [], dmap := [], tDiff := cp.bestDiff, tDist := cp.totalDist,
      tGain := cp.totalElevGain, tDesc := cp.totalDescent }
    (by simp) (by simp) (by simp) (by simp)
    (fun _ => ⟨rfl, rfl, rfl, rfl⟩) (by simp)
  exact ⟨h.2.2.1, h.1, h.2.2.2.1, h.2.2.2.2.2⟩

/-- Claim C2: for every processed step with at least one valid raster
sample, segment_difficulty is the sum of the absolute sampled values,
elevation_gain the sum of the positive deltas between consecutive valid
samples, descent the sum of the negative deltas kept negative, and the
cumulative fields are running sums seeded from the best values of the
source cutting point; in the concrete scenario of a single seed with
best_difficulty 0 and one neighbor over a 50 unit segment with 50 samples
of value 2, the segment difficulty is 100 and the total difficulty written
to the neighbor is 100. -/
theorem claim_C2 :
    (∀ (env : GeoEnv) (cp : CPState) (i j t : Nat),
        (∀ r ∈ (computeDifficulty env cp i j t).recs, recFormulas env t r)
        ∧ List.Chain' stepLink (computeDifficulty env cp i j t).recs
        ∧ (∀ hd ∈ (computeDifficulty env cp i j t).recs.head?,
            seededFrom cp.bestDiff cp.totalDist cp.totalElevGain cp.totalDescent hd)
        ∧ (computeDifficulty env cp i j t).totalDiff
            = cp.bestDiff
              + ((((computeDifficulty env cp i j t).recs.map SegRec.segDiff).sum : ℚ) : QI))
    ∧ (∀ vals : List ℚ,
        gainOf vals = ((consecDeltas vals).filter (fun x => decide (0 < x))).sum
        ∧ descentOf vals
            = ((consecDeltas vals).filter (fun x => decide (x < 0))).sum)
    ∧ (computeDifficulty envC cp0C 0 1 0).recs.map SegRec.segDiff = [100]
    ∧ (computeDifficulty envC cp0C 0 1 0).totalDiff = ((100 : ℚ) : QI)
    ∧ ((processNeighbors envC adjC stC 0).cps 1).bestDiff = ((100 : ℚ) : QI) := by
  refine ⟨computeDifficulty_spec,
    fun vals => ⟨gainOf_eq vals, descentOf_eq vals⟩, ?_, ?_, ?_⟩
  · decide
  · decide
  · decide

/-- Witness for claim C2: the theorem applied at the scenario environment
and at a concrete sample list, with the right hand sides evaluated. -/
theorem claim_C2_witness :
    (computeDifficulty envC cp0C 0 1 0).totalDiff = ((100 : ℚ) : QI)
    ∧ gainOf [1, 3, 2] = 2 ∧ descentOf [1, 3, 2] = -1 := by
  refine ⟨claim_C2.2.2.2.1, ?_, ?_⟩
  · have h := (claim_C2.2.1 [1, 3, 2]).1
    have h2 : ((consecDeltas [1, 3, 2]).filter (fun x => decide (0 < x))).sum = 2 := by
      decide
    exact h.trans h2
  · have h := (claim_C2.2.1 [1, 3, 2]).2
    have h2 : ((consecDeltas [1, 3, 2]).filter (fun x => decide (x < 0))).sum = -1 := by
      decide
    exact h.trans h2

/-- Unfolding of the default lookup on a cons cell. -/
theorem dictGetD_cons {α : Type} (a : ℚ) (v : α) (m : List (ℚ × α)) (k : ℚ)
    (dflt : α) :
    dictGetD ((a, v) :: m) k dflt
      = if a = k then v else dictGetD m k dflt := by
  by_cases h : a = k
  · subst h
    simp [dictGetD, List.find?]
  · have hb : (((a, v) : ℚ × α).1 == k) = false := by simpa using h
    simp only [dictGetD, List.find?, hb, if_neg h]

/-- At every key of the sorted key set, the merged difficulty map holds the
minimum of the forward and backward values (missing keys defaulting to
infinity). -/
theorem mergeAux_lookup (mapF mapB : DiffMap) (segF segB : List (ℚ × SegRec)) :
    ∀ (allD : List ℚ), allD.Nodup → ∀ d ∈ allD,
      dictGetD (mergeAux mapF mapB segF segB allD).2 d ⊤
        = min (dictGetD mapF d ⊤) (dictGetD mapB d ⊤) := by
  intro allD
  induction allD with
  | nil => intro _ d hd; cases hd
  | cons a rest ih =>
    intro hnd d hd
    have hndrest : rest.Nodup := (List.nodup_cons.mp hnd).2
    have hanotin : a ∉ rest := (List.nodup_cons.mp hnd).1
    simp only [mergeAux]
    rcases List.mem_cons.mp hd with rfl | hdrest
    · split
      case isTrue h =>
        rw [dictGetD_cons, if_pos rfl]
        exact (min_eq_left h).symm
      case isFalse h =>
        rw [dictGetD_cons, if_pos rfl]
        exact (min_eq_right (le_of_not_le h)).symm
    · have hne : a ≠ d := by
        intro hc; subst hc; exact hanotin hdrest
      split
      · rw [dictGetD_cons, if_neg hne]
        exact ih hndrest d hdrest
      · rw [dictGetD_cons, if_neg hne]
        exact ih hndrest d hdrest

/-- A successful dict lookup returns a stored pair. -/
theorem dictGet?_mem {α : Type} (m : List (ℚ × α)) (k : ℚ) (v : α)
    (h : dictGet? m k = some v) : (k, v) ∈ m := by
  unfold dictGet? at h
  cases hf : m.find? (fun p => p.1 == k) with
  | none => rw [hf] at h; cases h
  | some p =>
    rw [hf] at h
    simp only [Option.map, Option.some.injEq] at h
    have hp := List.find?_some hf
    have hm := List.mem_of_find?_eq_some hf
    have hk : p.1 = k := by simpa using hp
    have : p = (k, v) := by
      cases p with
      | mk p1 p2 => simp only at hk h; rw [hk, h]
    rwa [this] at hm

/-- Every pair stored by a dict upsert is an old pair or the new one. -/
theorem dictUpsert_mem {α : Type} (m : List (ℚ × α)) (k : ℚ) (v : α)
    (p : ℚ × α) (h : p ∈ dictUpsert m k v) : p ∈ m ∨ p = (k, v) := by
  unfold dictUpsert at h
  split at h
  · rcases List.mem_map.mp h with ⟨q, hq, hq2⟩
    by_cases hqk : q.1 == k
    · rw [if_pos hqk] at hq2; right; exact hq2.symm
    · rw [if_neg hqk] at hq2; left; rwa [← hq2]
  · rcases List.mem_append.mp h with h1 | h1
    · left; exact h1
    · right; simpa using h1

/-- Every value stored in the by distance dict of a segment list is one of
the segments. -/
theorem segsByDist_val_mem :
    ∀ (l : List SegRec) (acc : List (ℚ × SegRec)) (p : ℚ × SegRec),
      p ∈ l.foldl (fun m s => dictUpsert m s.positSeg s) acc →
      p ∈ acc ∨ p.2 ∈ l := by
  intro l
  induction l with
  | nil => intro acc p h; left; exact h
  | cons s rest ih =>
    intro acc p h
    rcases ih (dictUpsert acc s.positSeg s) p h with h1 | h1
    · rcases dictUpsert_mem acc s.positSeg s p h1 with h2 | h2
      · left; exact h2
      · right; rw [h2]; exact List.mem_cons_self _ _
    · right; exact List.mem_cons_of_mem _ h1

/-- Every segment kept by the merge loop comes from one of the two by
distance dicts. -/
theorem mergeAux_fst_mem (mapF mapB : DiffMap) (segF segB : List (ℚ × SegRec)) :
    ∀ (allD : List ℚ) (s : SegRec), s ∈ (mergeAux mapF mapB segF segB allD).1 →
      (∃ k, (k, s) ∈ segF) ∨ ∃ k, (k, s) ∈ segB := by
  intro allD
  induction allD with
  | nil => intro s h; cases h
  | cons a rest ih =>
    intro s h
    simp only [mergeAux] at h
    split at h
    · revert h
      cases hf : dictGet? segF a with
      | none => intro h; exact ih s h
      | some sf =>
        intro h
        rcases List.mem_cons.mp h with rfl | h2
        · left; exact ⟨a, dictGet?_mem segF a s hf⟩
        · exact ih s h2
    · revert h
      cases hf : dictGet? segB a with
      | none => intro h; exact ih s h
      | some sb =>
        intro h
        rcases List.mem_cons.mp h with rfl | h2
        · right; exact ⟨a, dictGet?_mem segB a s hf⟩
        · exact ih s h2

/-- Claim C1: in the relaxation of a popped cutting point i toward neighbor
j over trail t, when the forward computation is not better or equal and the
opposite direction final cost exceeds the best difficulty of i, the engine
replaces the stored segments between this pair on this trail by the merged
set: the new collection is exactly the old one with every segment between
the pair removed and the merged segments appended, the cutting point costs
are untouched, the trail map is overwritten with the merged map, every
removed segment is gone from the filtered part, the merged map holds the
minimum of the two directional values at every key of either map, and every
merged segment comes from one of the two directional computations. -/
theorem claim_C1 (env : GeoEnv) (st : EngState) (i j t : Nat)
    (h1 : ¬ (computeDifficulty env (st.cps i) i j t).totalDiff
        ≤ (st.cps j).bestDiff)
    (h2 : (st.cps i).bestDiff
        < (computeDifficulty env (st.cps j) j i t).totalDiff) :
    (relaxNeighborTrail env st i j t).segs
      = removeSegmentsBetween st.segs t j i
        ++ (mergeSegmentsAndDifficulties
            (computeDifficulty env (st.cps i) i j t).recs
            (computeDifficulty env (st.cps i) i j t).dmap
            (computeDifficulty env (st.cps j) j i t).recs
            (computeDifficulty env (st.cps j) j i t).dmap).1
    ∧ (relaxNeighborTrail env st i j t).cps = st.cps
    ∧ (relaxNeighborTrail env st i j t).tmaps
      = tmapSet st.tmaps t
          (mergeSegmentsAndDifficulties
            (computeDifficulty env (st.cps i) i j t).recs
            (computeDifficulty env (st.cps i) i j t).dmap
            (computeDifficulty env (st.cps j) j i t).recs
            (computeDifficulty env (st.cps j) j i t).dmap).2
    ∧ (∀ s ∈ st.segs, segBetween s t j i = true →
        s ∉ removeSegmentsBetween st.segs t j i)
    ∧ (∀ d : ℚ,
        (d ∈ (computeDifficulty env (st.cps i) i j t).dmap.map Prod.fst
          ∨ d ∈ (computeDifficulty env (st.cps j) j i t).dmap.map Prod.fst) →
        dictGetD (mergeSegmentsAndDifficulties
            (computeDifficulty env (st.cps i) i j t).recs
            (computeDifficulty env (st.cps i) i j t).dmap
            (computeDifficulty env (st.cps j) j i t).recs
            (computeDifficulty env (st.cps j) j i t).dmap).2 d ⊤
          = min (dictGetD (computeDifficulty env (st.cps i) i j t).dmap d ⊤)
              (dictGetD (computeDifficulty env (st.cps j) j i t).dmap d ⊤))
    ∧ (∀ s ∈ (mergeSegmentsAndDifficulties
            (computeDifficulty env (st.cps i) i j t).recs
            (computeDifficulty env (st.cps i) i j t).dmap
            (computeDifficulty env (st.cps j) j i t).recs
            (computeDifficulty env (st.cps j) j i t).dmap).1,
        s ∈ (computeDifficulty env (st.cps i) i j t).recs
          ∨ s ∈ (computeDifficulty env (st.cps j) j i t).recs) := by
  have hrelax :
      relaxNeighborTrail env st i j t
        = { cps := st.cps,
            queue := st.queue ++ [j],
            segs := removeSegmentsBetween st.segs t j i
              ++ (mergeSegmentsAndDifficulties
                  (computeDifficulty env (st.cps i) i j t).recs
                  (computeDifficulty env (st.cps i) i j t).dmap
                  (computeDifficulty env (st.cps j) j i t).recs
                  (computeDifficulty env (st.cps j) j i t).dmap).1,
            tmaps := tmapSet st.tmaps t
              (mergeSegmentsAndDifficulties
                  (computeDifficulty env (st.cps i) i j t).recs
                  (computeDifficulty env (st.cps i) i j t).dmap
                  (computeDifficulty env (st.cps j) j i t).recs
                  (computeDifficulty env (st.cps j) j i t).dmap).2 } := by
    dsimp only [relaxNeighborTrail]
    rw [if_neg h1, if_pos h2]
  refine ⟨by rw [hrelax], by rw [hrelax], by rw [hrelax], ?_, ?_, ?_⟩
  · intro s hs hbet
    intro hc
    have := (List.mem_filter.mp hc).2
    rw [hbet] at this
    exact absurd this (by simp)
  · intro d hd
    unfold mergeSegmentsAndDifficulties
    have hdall : d ∈ (((computeDifficulty env (st.cps i) i j t).dmap.map Prod.fst
        ++ (computeDifficulty env (st.cps j) j i t).dmap.map Prod.fst).dedup).insertionSort
        (fun x y => x ≤ y) := by
      rw [(List.perm_insertionSort (fun x y => x ≤ y) _).mem_iff, List.mem_dedup,
        List.mem_append]
      exact hd
    have hnodup : ((((computeDifficulty env (st.cps i) i j t).dmap.map Prod.fst
        ++ (computeDifficulty env (st.cps j) j i t).dmap.map Prod.fst).dedup).insertionSort
        (fun x y => x ≤ y)).Nodup :=
      (List.perm_insertionSort (fun x y => x ≤ y) _).nodup_iff.mpr (List.nodup_dedup _)
    have hne : ¬ ((((computeDifficulty env (st.cps i) i j t).dmap.map Prod.fst
        ++ (computeDifficulty env (st.cps j) j i t).dmap.map Prod.fst).dedup).insertionSort
        (fun x y => x ≤ y)).isEmpty = true := by
      intro hc
      rw [List.isEmpty_iff] at hc
      rw [hc] at hdall
      cases hdall
    rw [if_neg hne]
    exact mergeAux_lookup _ _ _ _ _ hnodup d hdall
  · intro s hs
    simp only [mergeSegmentsAndDifficulties] at hs
    split at hs
    · cases hs
    · rcases mergeAux_fst_mem _ _ _ _ _ s hs with ⟨k, hk⟩ | ⟨k, hk⟩
      · left
        have := segsByDist_val_mem _ [] (k, s) hk
        rcases this with h | h
        · cases h
        · exact h
      · right
        have := segsByDist_val_mem _ [] (k, s) hk
        rcases this with h | h
        · cases h
        · exact h

/-- Witness for claim C1: the merge branch taken at the concrete merge
scenario, where the forward cost 6 is worse than the neighbor best 3 and
the backward cost 5 exceeds the popped best 4. -/
theorem claim_C1_witness :
    (relaxNeighborTrail envM stM 0 1 0).segs
      = removeSegmentsBetween stM.segs 0 1 0
        ++ (mergeSegmentsAndDifficulties
            (computeDifficulty envM (stM.cps 0) 0 1 0).recs
            (computeDifficulty envM (stM.cps 0) 0 1 0).dmap
            (computeDifficulty envM (stM.cps 1) 1 0 0).recs
            (computeDifficulty envM (stM.cps 1) 1 0 0).dmap).1
    ∧ (relaxNeighborTrail envM stM 0 1 0).cps = stM.cps
    ∧ dictGetD (mergeSegmentsAndDifficulties
            (computeDifficulty envM (stM.cps 0) 0 1 0).recs
            (computeDifficulty envM (stM.cps 0) 0 1 0).dmap
            (computeDifficulty envM (stM.cps 1) 1 0 0).recs
            (computeDifficulty envM (stM.cps 1) 1 0 0).dmap).2 50 ⊤
        = min (dictGetD (computeDifficulty envM (stM.cps 0) 0 1 0).dmap 50 ⊤)
            (dictGetD (computeDifficulty envM (stM.cps 1) 1 0 0).dmap 50 ⊤) := by
  have h := claim_C1 envM stM 0 1 0 (by decide) (by decide)
  refine ⟨h.1, h.2.1, ?_⟩
  refine h.2.2.2.2.1 50 ?_
  right
  decide

/-- Every step built by the while loop lies between the current position and
the upper bound, with a strictly positive extent. -/
theorem buildStepsAux_bounds :
    ∀ (fuel : Nat) (cur maxd : ℚ), ∀ ab ∈ buildStepsAux fuel cur maxd,
      cur ≤ ab.1 ∧ ab.1 < ab.2 ∧ ab.2 ≤ maxd := by
  intro fuel
  induction fuel with
  | zero => intro cur maxd ab hab; cases hab
  | succ n ih =>
    intro cur maxd ab hab
    by_cases h : cur < maxd
    · rw [buildStepsAux, if_pos h] at hab
      rcases List.mem_cons.mp hab with rfl | htail
      · exact ⟨le_refl _, lt_min (by linarith) h, min_le_right _ _⟩
      · have hb := ih (min (cur + 50) maxd) maxd ab htail
        have hc : cur ≤ min (cur + 50) maxd := le_min (by linarith) (le_of_lt h)
        exact ⟨le_trans hc hb.1, hb.2.1, hb.2.2⟩
    · rw [buildStepsAux, if_neg h] at hab
      cases hab

/-- With enough fuel, the extents of the built steps telescope to the whole
span. -/
theorem buildStepsAux_sum :
    ∀ (fuel : Nat) (cur maxd : ℚ), maxd - cur ≤ 50 * fuel →
      ((buildStepsAux fuel cur maxd).map (fun ab => ab.2 - ab.1)).sum
        = if cur < maxd then maxd - cur else 0 := by
  intro fuel
  induction fuel with
  | zero =>
    intro cur maxd hfuel
    have : ¬ cur < maxd := by
      intro hc
      simp only [Nat.cast_zero, mul_zero] at hfuel
      linarith
    rw [if_neg this, buildStepsAux]
    simp
  | succ n ih =>
    intro cur maxd hfuel
    push_cast at hfuel
    by_cases h : cur < maxd
    · rw [buildStepsAux, if_pos h]
      simp only [List.map_cons, List.sum_cons]
      by_cases h2 : cur + 50 < maxd
      · have hmin : min (cur + 50) maxd = cur + 50 := min_eq_left (le_of_lt h2)
        have hrest := ih (cur + 50) maxd (by linarith)
        rw [hmin, hrest, if_pos h2, if_pos h]
        ring
      · have hmin : min (cur + 50) maxd = maxd :=
          min_eq_right (le_of_not_lt h2)
        have h0 : (0:ℚ) ≤ 50 * (n : ℚ) := by positivity
        have hrest := ih maxd maxd (by linarith)
        rw [hmin, hrest, if_neg (lt_irrefl maxd), if_pos h]
        ring
    · rw [buildStepsAux, if_neg h, if_neg h]
      simp

/-- The fuel chosen for the while loop is always sufficient. -/
theorem stepsFuel_big (mind maxd : ℚ) :
    maxd - mind ≤ 50 * (stepsFuel mind maxd) := by
  have h1 : (maxd - mind) / 50 ≤ ((⌈(maxd - mind) / 50⌉ : ℤ) : ℚ) :=
    Int.le_ceil _
  have h2 : ((⌈(maxd - mind) / 50⌉ : ℤ) : ℚ)
      ≤ (((⌈(maxd - mind) / 50⌉).toNat : ℕ) : ℚ) := by
    exact_mod_cast Int.self_le_toNat _
  have h4 : (maxd - mind) / 50 ≤ ((stepsFuel mind maxd : ℕ) : ℚ) := by
    unfold stepsFuel
    push_cast
    linarith
  have h5 := (div_le_iff₀ (by norm_num : (0:ℚ) < 50)).mp h4
  linarith

/-- When interpolation along the chosen geometry is an isometry on the
projected span, the stepped accumulation of dist_on_road telescopes to the
length of the span. -/
theorem sumStepLens_eq (g : RoadGeom) (pdist : Pt → Pt → ℚ) (mind maxd : ℚ)
    (hiso : ∀ a b : ℚ, mind ≤ a → a ≤ b → b ≤ maxd →
      pdist (g.interp a) (g.interp b) = b - a) :
    sumStepLens g pdist mind maxd = if mind < maxd then maxd - mind else 0 := by
  unfold sumStepLens buildSteps
  have hmap : ((buildStepsAux (stepsFuel mind maxd) mind maxd).map
        (fun ab => pdist (g.interp ab.1) (g.interp ab.2)))
      = ((buildStepsAux (stepsFuel mind maxd) mind maxd).map
        (fun ab => ab.2 - ab.1)) := by
    apply List.map_congr_left
    intro ab hab
    have hb := buildStepsAux_bounds (stepsFuel mind maxd) mind maxd ab hab
    exact hiso ab.1 ab.2 hb.1 (le_of_lt hb.2.1) hb.2.2
  rw [hmap]
  exact buildStepsAux_sum (stepsFuel mind maxd) mind maxd (stepsFuel_big mind maxd)

/-- When the geometry nearest to the query point is a line whose
interpolation is an isometry on the projected span, dist_on_road returns
the absolute difference of the two projections: the along road arc length
on that single geometry. -/
theorem distOnRoad_straight (roads : List RoadGeom) (pdist : Pt → Pt → ℚ)
    (cpPos startPos : Pt) (k : Nat) (g : RoadGeom)
    (hidx : idxmin (roads.map (fun g2 => g2.distToPt cpPos)) = some k)
    (hget : roads.get? k = some g)
    (hline : g.isLine = true)
    (hiso : ∀ a b : ℚ,
      min (g.projectPt cpPos) (g.projectPt startPos) ≤ a → a ≤ b →
      b ≤ max (g.projectPt cpPos) (g.projectPt startPos) →
      pdist (g.interp a) (g.interp b) = b - a) :
    distOnRoad roads pdist cpPos startPos
      = ((|g.projectPt cpPos - g.projectPt startPos| : ℚ) : QI) := by
  unfold distOnRoad
  rw [hidx]
  dsimp only
  rw [hget]
  dsimp only
  rw [if_pos hline]
  rw [sumStepLens_eq g pdist _ _ hiso]
  by_cases h : min (g.projectPt cpPos) (g.projectPt startPos)
      < max (g.projectPt cpPos) (g.projectPt startPos)
  · rw [if_pos h, max_sub_min_eq_abs, abs_sub_comm]
  · rw [if_neg h]
    have hle := le_of_not_lt h
    have heq : g.projectPt cpPos = g.projectPt startPos := by
      have h1 := le_trans
        (le_max_left (g.projectPt cpPos) (g.projectPt startPos))
        (le_trans hle (min_le_right _ _))
      have h2 := le_trans
        (le_max_right (g.projectPt cpPos) (g.projectPt startPos))
        (le_trans hle (min_le_left _ _))
      exact le_antisymm h1 h2
    rw [heq, sub_self, abs_zero]

/-- initialize_queue pushes every starting cutting point onto the queue. -/
theorem seedQueue_queue (roads : List RoadGeom) (pdist : Pt → Pt → ℚ)
    (pos : Nat → Pt) (startPt : Pt) :
    ∀ (starts : List Nat) (st : EngState),
      (seedQueue roads pdist pos startPt starts st).queue
        = st.queue ++ starts := by
  intro starts
  induction starts with
  | nil => intro st; simp [seedQueue]
  | cons a rest ih =>
    intro st
    show (seedQueue roads pdist pos startPt rest _).queue = _
    rw [ih]
    simp

/-- A cutting point not among the starts keeps its fields through
initialize_queue. -/
theorem seedQueue_cps_not_mem (roads : List RoadGeom) (pdist : Pt → Pt → ℚ)
    (pos : Nat → Pt) (startPt : Pt) :
    ∀ (starts : List Nat) (st : EngState) (i : Nat), i ∉ starts →
      (seedQueue roads pdist pos startPt starts st).cps i = st.cps i := by
  intro starts
  induction starts with
  | nil => intro st i _; rfl
  | cons a rest ih =>
    intro st i hi
    have hia : i ≠ a := fun hc => hi (hc ▸ List.mem_cons_self a rest)
    have hirest : i ∉ rest := fun hc => hi (List.mem_cons_of_mem a hc)
    show (seedQueue roads pdist pos startPt rest _).cps i = _
    rw [ih _ i hirest]
    exact Function.update_noteq hia _ _

/-- Every starting cutting point ends initialize_queue with zero cost
fields and the dist_on_road value for its position. -/
theorem seedQueue_cps_mem (roads : List RoadGeom) (pdist : Pt → Pt → ℚ)
    (pos : Nat → Pt) (startPt : Pt) :
    ∀ (starts : List Nat) (st : EngState) (i : Nat), i ∈ starts →
      (seedQueue roads pdist pos startPt starts st).cps i
        = ⟨0, 0, 0, 0, distOnRoad roads pdist (pos i) startPt⟩ := by
  intro starts
  induction starts with
  | nil => intro st i hi; cases hi
  | cons a rest ih =>
    intro st i hi
    by_cases hirest : i ∈ rest
    · exact ih _ i hirest
    · have hia : i = a := by
        rcases List.mem_cons.mp hi with h | h
        · exact h
        · exact absurd h hirest
      subst hia
      show (seedQueue roads pdist pos startPt rest _).cps i = _
      rw [seedQueue_cps_not_mem roads pdist pos startPt rest _ i hirest]
      exact Function.update_same i _ _

/-- Claim C3 counterexample: two disjoint horizontal roads A (height 0) and
B (height 20), the query point (30, 1) nearest to A, the start point
(70, 19) nearest to B. The road network shortest path of the spec does not
exist, so the claimed road distance is infinite, but dist_on_road returns
the finite arc length 40 along road A alone. -/
theorem claim_C3_cex :
    distOnRoad [roadA, roadB] pdistEx ((30 : ℚ), (1 : ℚ)) ((70 : ℚ), (19 : ℚ))
        = ((40 : ℚ) : QI)
    ∧ specRoadNetworkDist 6 cexEdges 4 5 = ⊤
    ∧ ((40 : ℚ) : QI) ≠ ⊤ := by
  refine ⟨by decide, by decide, by decide⟩

/-- Claim C3 as amended: initialize_queue sets every seed road distance to
dist_on_road, which is the stepped arc length along the single geometry
nearest to the seed between the projections of the seed and of the start
point onto it (the absolute difference of the two projections when that
geometry is a line with isometric interpolation on the span), is infinite
when the road layer is empty, and never prevents a seed from being
enqueued. -/
theorem claim_C3_amended :
    (∀ (roads : List RoadGeom) (pdist : Pt → Pt → ℚ) (pos : Nat → Pt)
        (startPt : Pt) (starts : List Nat) (st : EngState),
        (seedQueue roads pdist pos startPt starts st).queue
          = st.queue ++ starts)
    ∧ (∀ (roads : List RoadGeom) (pdist : Pt → Pt → ℚ) (pos : Nat → Pt)
        (startPt : Pt) (starts : List Nat) (st : EngState) (i : Nat),
        i ∈ starts →
        (seedQueue roads pdist pos startPt starts st).cps i
          = ⟨0, 0, 0, 0, distOnRoad roads pdist (pos i) startPt⟩)
    ∧ (∀ (pdist : Pt → Pt → ℚ) (cpPos startPos : Pt),
        distOnRoad [] pdist cpPos startPos = ⊤)
    ∧ (∀ (roads : List RoadGeom) (pdist : Pt → Pt → ℚ)
        (cpPos startPos : Pt) (k : Nat) (g : RoadGeom),
        idxmin (roads.map (fun g2 => g2.distToPt cpPos)) = some k →
        roads.get? k = some g →
        g.isLine = true →
        (∀ a b : ℚ,
          min (g.projectPt cpPos) (g.projectPt startPos) ≤ a → a ≤ b →
          b ≤ max (g.projectPt cpPos) (g.projectPt startPos) →
          pdist (g.interp a) (g.interp b) = b - a) →
        distOnRoad roads pdist cpPos startPos
          = ((|g.projectPt cpPos - g.projectPt startPos| : ℚ) : QI)) := by
  refine ⟨seedQueue_queue, seedQueue_cps_mem, ?_, ?_⟩
  · intro pdist cpPos startPos; rfl
  · intro roads pdist cpPos startPos k g hidx hget hline hiso
    exact distOnRoad_straight roads pdist cpPos startPos k g hidx hget hline hiso

/-- Witness for the amended claim C3: one seed at (30, 1), the single road
A, start point (70, 19); the seed is enqueued with zero cost and road
distance 40, the arc length between the projections 30 and 70. -/
theorem claim_C3_witness :
    (seedQueue [roadA] pdistEx (fun _ => ((30 : ℚ), (1 : ℚ)))
        ((70 : ℚ), (19 : ℚ)) [0] engInit).queue = [0]
    ∧ (seedQueue [roadA] pdistEx (fun _ => ((30 : ℚ), (1 : ℚ)))
        ((70 : ℚ), (19 : ℚ)) [0] engInit).cps 0
      = ⟨0, 0, 0, 0,
          distOnRoad [roadA] pdistEx ((30 : ℚ), (1 : ℚ)) ((70 : ℚ), (19 : ℚ))⟩
    ∧ distOnRoad [roadA] pdistEx ((30 : ℚ), (1 : ℚ)) ((70 : ℚ), (19 : ℚ))
      = ((40 : ℚ) : QI) := by
  refine ⟨claim_C3_amended.1 [roadA] pdistEx _ _ [0] engInit,
    claim_C3_amended.2.1 [roadA] pdistEx _ _ [0] engInit 0 (by decide), ?_⟩
  have h := claim_C3_amended.2.2.2 [roadA] pdistEx
    ((30 : ℚ), (1 : ℚ)) ((70 : ℚ), (19 : ℚ)) 0 roadA (by decide) rfl rfl ?_
  · rw [h]
    norm_num [roadA, bandProj]
  · intro a b ha hab hb
    have hproj1 : roadA.projectPt ((30 : ℚ), (1 : ℚ)) = 30 := by
      norm_num [roadA, bandProj]
    have hproj2 : roadA.projectPt ((70 : ℚ), (19 : ℚ)) = 70 := by
      norm_num [roadA, bandProj]
    rw [hproj1, hproj2] at ha hb
    have h30 : (30 : ℚ) ≤ a := le_trans (by norm_num) ha
    have h70 : b ≤ (70 : ℚ) := le_trans hb (by norm_num)
    have hia : roadA.interp a = (a, 0) := by
      show bandInterp 0 a = (a, 0)
      unfold bandInterp
      rw [max_eq_right (by linarith : (0:ℚ) ≤ a),
        min_eq_right (by linarith : a ≤ (100:ℚ))]
    have hib : roadA.interp b = (b, 0) := by
      show bandInterp 0 b = (b, 0)
      unfold bandInterp
      rw [max_eq_right (by linarith : (0:ℚ) ≤ b),
        min_eq_right (by linarith : b ≤ (100:ℚ))]
    rw [hia, hib]
    show (if (0:ℚ) = 0 then |a - b| else 0) = b - a
    rw [if_pos rfl, abs_sub_comm, abs_of_nonneg (by linarith)]

/-- Assigning a key of a neighbor dict makes that key hold the assigned
list. -/
theorem nbrGet_nbrSet_self (m : NbrMap) (k : Nat) (v : List Nat) :
    nbrGet (nbrSet m k v) k = v := by
  induction m with
  | nil =>
    simp [nbrSet, nbrHasKey, nbrGet, List.find?]
  | cons p m ih =>
    by_cases hpk : p.1 = k
    · have hh : nbrHasKey (p :: m) k = true := by
        simp [nbrHasKey, hpk]
      unfold nbrSet
      rw [hh]
      simp only [if_true, List.map_cons]
      have hb : (p.1 == k) = true := by simpa using hpk
      rw [hb]
      simp [nbrGet, List.find?]
    · have hb : (p.1 == k) = false := by simpa using hpk
      cases hkey : nbrHasKey m k with
      | true =>
        have hh : nbrHasKey (p :: m) k = true := by
          simp only [nbrHasKey, List.any_cons, hb, Bool.false_or]
          exact hkey
        unfold nbrSet
        rw [hh]
        simp only [if_true, List.map_cons, hb]
        simp only [Bool.false_eq_true, if_false]
        show nbrGet (p :: m.map _) k = v
        unfold nbrGet
        rw [List.find?]
        rw [hb]
        have : (m.map fun q => if q.1 == k then (k, v) else q).find?
            (fun q => q.1 == k) = (nbrSet m k v).find? (fun q => q.1 == k) := by
          unfold nbrSet
          rw [hkey]
          simp
        rw [this]
        have := ih
        unfold nbrGet at this
        exact this
      | false =>
        have hh : nbrHasKey (p :: m) k = false := by
          simp only [nbrHasKey, List.any_cons, hb, Bool.false_or]
          exact hkey
        unfold nbrSet
        rw [hh]
        simp only [Bool.false_eq_true, if_false]
        unfold nbrGet
        rw [List.cons_append, List.find?]
        rw [hb]
        have hnone : m.find? (fun q => q.1 == k) = none := by
          rw [List.find?_eq_none]
          intro x hx hcx
          have hcon : nbrHasKey m k = true := by
            simp only [nbrHasKey, List.any_eq_true]
            exact ⟨x, hx, hcx⟩
          rw [hkey] at hcon
          cases hcon
        rw [List.find?_append, hnone]
        simp [List.find?]

/-- Appending a trail to a key of a neighbor dict extends that key by the
trail. -/
theorem nbrGet_nbrAppend_self (m : NbrMap) (k t : Nat) :
    nbrGet (nbrAppend m k t) k = nbrGet m k ++ [t] := by
  unfold nbrAppend
  exact nbrGet_nbrSet_self m k (nbrGet m k ++ [t])

/-- Dict of the first point after one double append, for distinct points. -/
theorem appendPairBoth_fst (t a b : Nat) (st : NbrState) (h : a ≠ b) :
    (appendPairBoth t a b st) a = nbrAppend (st a) b t := by
  unfold appendPairBoth
  rw [Function.update_noteq h]
  exact Function.update_same a _ st

/-- Dict of the second point after one double append, for distinct
points. -/
theorem appendPairBoth_snd (t a b : Nat) (st : NbrState) (h : a ≠ b) :
    (appendPairBoth t a b st) b = nbrAppend (st b) a t := by
  unfold appendPairBoth
  rw [Function.update_same]
  rw [Function.update_noteq (Ne.symm h)]

/-- Claim C8 counterexample: one trail (id 5) with the two ordered cutting
points 0 and 1, starting from empty neighbor dicts. After the intra trail
loop of build_cutting_points the list holds the trail once, but after
build_graph_from_trails appends again it holds it twice, refuting the
claimed duplicate free append-if-absent behavior. -/
theorem claim_C8_cex :
    nbrGet ((graphPhaseTrail 5 [0, 1] (intraConnectTrail 5 [0, 1] emptyNbrs)) 0) 1
        = [5, 5]
    ∧ (nbrGet ((graphPhaseTrail 5 [0, 1]
        (intraConnectTrail 5 [0, 1] emptyNbrs)) 0) 1).count 5 ≠ 1 := by
  refine ⟨by decide, by decide⟩

/-- Claim C8 as amended: consecutive cutting points of a trail become
mutual neighbor keys listing the trail, but through unconditional appends:
the intra trail loop of build_cutting_points appends once and the edge loop
of build_graph_from_trails appends once more, so each side ends with two
copies of the trail added to whatever was there before, not with a
duplicate free list. -/
theorem claim_C8_amended (t a b : Nat) (st : NbrState) (h : a ≠ b) :
    nbrGet ((graphPhaseTrail t [a, b] (intraConnectTrail t [a, b] st)) a) b
        = (nbrGet (st a) b ++ [t]) ++ [t]
    ∧ nbrGet ((graphPhaseTrail t [a, b] (intraConnectTrail t [a, b] st)) b) a
        = (nbrGet (st b) a ++ [t]) ++ [t]
    ∧ (nbrGet ((graphPhaseTrail t [a, b] (intraConnectTrail t [a, b] st)) a) b).count t
        = (nbrGet (st a) b).count t + 2
    ∧ t ∈ nbrGet ((graphPhaseTrail t [a, b] (intraConnectTrail t [a, b] st)) a) b := by
  have h1 : intraConnectTrail t [a, b] st = appendPairBoth t a b st := rfl
  have h2 : graphPhaseTrail t [a, b] (appendPairBoth t a b st)
      = appendPairBoth t a b (appendPairBoth t a b st) := rfl
  have ha : (appendPairBoth t a b (appendPairBoth t a b st)) a
      = nbrAppend (nbrAppend (st a) b t) b t := by
    rw [appendPairBoth_fst t a b _ h, appendPairBoth_fst t a b st h]
  have hb : (appendPairBoth t a b (appendPairBoth t a b st)) b
      = nbrAppend (nbrAppend (st b) a t) a t := by
    rw [appendPairBoth_snd t a b _ h, appendPairBoth_snd t a b st h]
  rw [h1, h2, ha, hb]
  rw [nbrGet_nbrAppend_self, nbrGet_nbrAppend_self,
    nbrGet_nbrAppend_self, nbrGet_nbrAppend_self]
  refine ⟨rfl, rfl, ?_, ?_⟩
  · simp [List.count_append]
  · simp

/-- Witness for the amended claim C8: trail 5 between points 0 and 1 from
empty dicts ends with the list holding trail 5 exactly twice. -/
theorem claim_C8_witness :
    nbrGet ((graphPhaseTrail 5 [0, 1] (intraConnectTrail 5 [0, 1] emptyNbrs)) 0) 1
        = (nbrGet (emptyNbrs 0) 1 ++ [5]) ++ [5]
    ∧ (nbrGet ((graphPhaseTrail 5 [0, 1]
        (intraConnectTrail 5 [0, 1] emptyNbrs)) 0) 1).count 5
        = (nbrGet (emptyNbrs 0) 1).count 5 + 2 := by
  have h := claim_C8_amended 5 0 1 emptyNbrs (by decide)
  exact ⟨h.1, h.2.2.1⟩

/-- Claim C10 counterexample: with two existing cutting points at (0, 0)
and (1/10, 0), both within the 0.2 reuse tolerance of the candidate
position (1/20, 0), the reuse scan of find_or_create_cutting_point returns
whichever point the set iteration order lists first: the two orders are
permutations of the same collection yet produce different reused points, so
the tie break is not deterministic across runs. -/
theorem claim_C10_cex :
    findOrCreateScan pdistEx [((0 : ℚ), (0 : ℚ)), ((1 / 10 : ℚ), (0 : ℚ))]
        ((1 / 20 : ℚ), (0 : ℚ)) = some ((0 : ℚ), (0 : ℚ))
    ∧ findOrCreateScan pdistEx [((1 / 10 : ℚ), (0 : ℚ)), ((0 : ℚ), (0 : ℚ))]
        ((1 / 20 : ℚ), (0 : ℚ)) = some ((1 / 10 : ℚ), (0 : ℚ))
    ∧ ([((0 : ℚ), (0 : ℚ)), ((1 / 10 : ℚ), (0 : ℚ))] : List Pt).Perm
        [((1 / 10 : ℚ), (0 : ℚ)), ((0 : ℚ), (0 : ℚ))]
    ∧ (some ((0 : ℚ), (0 : ℚ)) : Option Pt) ≠ some ((1 / 10 : ℚ), (0 : ℚ)) := by
  refine ⟨by decide, by decide, by decide, by decide⟩

/-- Claim C10 as amended: the reuse scan is independent of the iteration
order over the cutting point collection exactly when at most one existing
point lies within the 0.2 tolerance of the queried position; under that
uniqueness condition any two iteration orders of the same collection give
the same reused point. -/
theorem claim_C10_amended (pdist : Pt → Pt → ℚ) (l1 l2 : List Pt) (p : Pt)
    (hperm : l1.Perm l2)
    (huniq : ∀ x ∈ l1, ∀ y ∈ l1,
      pdist x p < 1 / 5 → pdist y p < 1 / 5 → x = y) :
    findOrCreateScan pdist l1 p = findOrCreateScan pdist l2 p := by
  unfold findOrCreateScan
  cases h1 : l1.find? (fun c => decide (pdist c p < 1 / 5)) with
  | none =>
    cases h2 : l2.find? (fun c => decide (pdist c p < 1 / 5)) with
    | none => rfl
    | some y =>
      have hy := List.find?_some h2
      have hym := List.mem_of_find?_eq_some h2
      have hyl1 : y ∈ l1 := hperm.mem_iff.mpr hym
      exact absurd hy (List.find?_eq_none.mp h1 y hyl1)
  | some x =>
    cases h2 : l2.find? (fun c => decide (pdist c p < 1 / 5)) with
    | none =>
      have hx := List.find?_some h1
      have hxm := List.mem_of_find?_eq_some h1
      have hxl2 : x ∈ l2 := hperm.mem_iff.mp hxm
      exact absurd hx (List.find?_eq_none.mp h2 x hxl2)
    | some y =>
      have hx := List.find?_some h1
      have hxm := List.mem_of_find?_eq_some h1
      have hy := List.find?_some h2
      have hym := List.mem_of_find?_eq_some h2
      have hyl1 : y ∈ l1 := hperm.mem_iff.mpr hym
      have hxp : pdist x p < 1 / 5 := of_decide_eq_true hx
      have hyp : pdist y p < 1 / 5 := of_decide_eq_true hy
      rw [huniq x hxm y hyl1 hxp hyp]

/-- Witness for the amended claim C10: with existing points (0, 0) and
(10, 0) only the first is within tolerance of (1/20, 0), so both iteration
orders return the same point. -/
theorem claim_C10_witness :
    findOrCreateScan pdistEx [((0 : ℚ), (0 : ℚ)), ((10 : ℚ), (0 : ℚ))]
        ((1 / 20 : ℚ), (0 : ℚ))
      = findOrCreateScan pdistEx [((10 : ℚ), (0 : ℚ)), ((0 : ℚ), (0 : ℚ))]
        ((1 / 20 : ℚ), (0 : ℚ)) :=
  claim_C10_amended pdistEx _ _ _ (by decide) (by decide)

end ClaimTheorems

end DifficultyMap
